import Mathlib

/-!
Verification of the job-posting aggregation and ranking engine
(`src/tools/job_spy_tool.py`) against its natural-language specification.

Strings are modelled as `List Char`; the relevant Python string operations
(lowercasing, character stripping, substring search, the two regexes used by
the rating code) are embedded as executable functions.  Monetary values are
modelled as rationals (the Python code uses floats, exact on all the values
reachable here).  The browser environment is abstracted as an oracle giving
each site's page outcomes; everything downstream of it is embedded exactly.
-/

namespace JobSpy

/-- One job posting record, mirroring the dict built by the site adapters.
Absent dict keys are modelled by the empty string / `false`, matching the
`job.get(key, "")` accesses in the source. -/
structure Job where
  title : List Char
  company : List Char
  location : List Char
  url : List Char
  source : List Char
  date_posted : List Char
  salary : List Char
  snippet : List Char
  easy_apply : Bool
  remote : Bool
deriving DecidableEq, Repr

/-- ASCII lowercasing, as applied by Python `str.lower()` on the texts here. -/
def lowerStr (s : List Char) : List Char := s.map Char.toLower

/-- Whitespace characters recognised by Python's `\s` / `str.strip()` (ASCII). -/
def isWs (c : Char) : Bool :=
  c == ' ' || c == '\t' || c == '\n' || c == '\r' || c == '\x0B' || c == '\x0C'

/-- `needle.startsWith hay`-style prefix test on character lists. -/
def startsWith : List Char → List Char → Bool
  | [], _ => true
  | _ :: _, [] => false
  | a :: as, b :: bs => a == b && startsWith as bs

/-- Substring containment, Python's `needle in hay` on strings. -/
def containsSub (needle : List Char) : List Char → Bool
  | [] => needle.isEmpty
  | c :: rest => startsWith needle (c :: rest) || containsSub needle rest

/-- Numeric value of a digit string (most significant first). -/
def digitsVal (ds : List Char) : Nat := ds.foldl (fun a c => a * 10 + (c.toNat - 48)) 0

/-- A decimal number represented in exact fixed point: its value is
`num / 10 ^ exp`.  The Python code computes with floats; every comparison and
floor performed on them here is exact in this representation. -/
structure NumToken where
  num : Nat
  exp : Nat
deriving DecidableEq, Repr

/-- First match of the regex `\d+(?:\.\d+)?` in a string: the leftmost maximal
digit run, optionally extended by a dot and a digit run.  This is
`re.findall(r"(\d+(?:\.\d+)?)", text)[0]` from the source. -/
def firstNumToken : List Char → Option NumToken
  | [] => none
  | c :: rest =>
    if c.isDigit then
      let ip := c :: rest.takeWhile Char.isDigit
      let fp := match rest.dropWhile Char.isDigit with
        | '.' :: r2 => r2.takeWhile Char.isDigit
        | _ => ([] : List Char)
      some ⟨digitsVal ip * 10 ^ fp.length + digitsVal fp, fp.length⟩
    else firstNumToken rest

/-- `_calculate_salary_penalty` from the source: lowercase, drop commas and
dollar signs, detect a `k` multiplier (removing the `k`s), take the first
numeric token, annualise values below 200 as hourly rates, and lose one point
per full $10k below the $200k target.  The token value is `num / 10 ^ exp`;
every arithmetic step keeps the denominator `10 ^ exp`, so the comparisons
with 200 and 200000 and the final floored division are performed exactly. -/
def calculate_salary_penalty (salary : List Char) : Int :=
  if salary = [] then 0
  else
    let text := ((lowerStr salary).filter (fun c => c != ',')).filter (fun c => c != '$')
    let mult : Nat := if 'k' ∈ text then 1000 else 1
    let text2 := if 'k' ∈ text then text.filter (fun c => c != 'k') else text
    match firstNumToken text2 with
    | none => 0
    | some t =>
      let n1 := t.num * mult
      let n2 := if n1 < 200 * 10 ^ t.exp then n1 * 2000 else n1
      if 200000 * 10 ^ t.exp ≤ n2 then 0
      else -(((200000 * 10 ^ t.exp - n2) / (10000 * 10 ^ t.exp) : Nat) : Int)

/-- The module-level `BEST_PLACES_TO_WORK` set from the source. -/
def bestPlaces : List (List Char) :=
  ["google".toList, "zappos".toList, "bluecore".toList, "airbnb".toList, "costco".toList,
   "zoom".toList, "ikea".toList, "cisco".toList, "ibm".toList, "squarespace".toList,
   "warby parker".toList, "healthpeak".toList, "mighty citizen".toList, "supplyforce".toList,
   "pultegroup".toList, "progressive insurance".toList, "dow".toList, "delta".toList,
   "adobe".toList, "boston scientific".toList, "canva".toList, "capital one".toList,
   "chase".toList, "deloitte".toList, "epsilon".toList, "ey".toList, "hyundai".toList,
   "intuit".toList, "pfizer".toList, "sap".toList, "starbucks".toList, "verizon".toList,
   "motorola solutions".toList, "siemens".toList, "omnea".toList, "nvidia".toList,
   "microsoft".toList, "bain & company".toList, "atlassian".toList, "salesforce".toList,
   "mathworks".toList, "lyulfe".toList, "procore".toList, "servicenow".toList,
   "hubspot".toList, "workday".toList, "fidelity investments".toList, "ally".toList,
   "mastercard".toList, "apple".toList, "meta".toList]

/-- Python `str.strip()` (ASCII whitespace). -/
def stripWs (s : List Char) : List Char :=
  ((s.dropWhile (fun c => isWs c)).reverse.dropWhile (fun c => isWs c)).reverse

/-- `_is_best_place_to_work` from the source: any curated company name occurs
as a substring of the lowercased, stripped company name. -/
def is_best_place_to_work (company : List Char) : Bool :=
  if company = [] then false
  else
    let name := stripWs (lowerStr company)
    bestPlaces.any (fun b => containsSub b name)

/-- After a digit run: skip whitespace, then require a literal `d`
(the `\s*d` tail of the regex `(\d+)\s*d`). -/
def followedByD (rest : List Char) : Bool :=
  match rest.dropWhile (fun c => isWs c) with
  | 'd' :: _ => true
  | _ => false

/-- Leftmost match of the regex `(\d+)\s*d`: scan for the first left-maximal
digit run whose following characters are whitespace and then `d`, and return
its value.  `prevDigit` records whether the previous character was a digit, so
that only left-maximal runs start a match attempt. -/
def scanDay (prevDigit : Bool) : List Char → Option Nat
  | [] => none
  | c :: rest =>
    if c.isDigit && !prevDigit then
      if followedByD (rest.dropWhile Char.isDigit) then
        some (digitsVal (c :: rest.takeWhile Char.isDigit))
      else scanDay true rest
    else scanDay c.isDigit rest

/-- The immediate-recency tokens tested by `_is_recent_job`. -/
def recencyTokens : List (List Char) :=
  ["today".toList, "just".toList, "hour".toList, "minute".toList, "second".toList,
   "new".toList]

/-- `_is_recent_job` from the source: an immediate-recency token, or the first
`N d`-style day count being at most 3. -/
def is_recent_job (date : List Char) : Bool :=
  if date = [] then false
  else
    let text := lowerStr date
    if recencyTokens.any (fun t => containsSub t text) then true
    else
      match scanDay false text with
      | some d => decide (d ≤ 3)
      | none => false

/-- `calculate_rating` from the source: the additive heuristic score. -/
def calculate_rating (j : Job) : Int :=
  let title := lowerStr j.title
  let snippet := lowerStr j.snippet
  let location := lowerStr j.location
  let full_text := title ++ [' '] ++ snippet
  let s0 : Int := 0
  let s1 := if j.easy_apply then s0 + 1 else s0
  let s2 := if is_recent_job j.date_posted then s1 + 1 else s1
  let s3 := if is_best_place_to_work j.company then s2 + 1 else s2
  let s4 := if containsSub "contract".toList title || containsSub "contract".toList snippet
            then s3 + 1 else s3
  let is_remote := containsSub "remote".toList location || j.remote
  let s5 := if is_remote then s4 + 1 else s4
  let s6 := if containsSub "c#".toList full_text || containsSub "c sharp".toList full_text
            then s5 + 1 else s5
  let s7 := if containsSub "c++".toList full_text || containsSub "cpp".toList full_text
            then s6 + 1 else s6
  let is_hybrid := containsSub "hybrid".toList location
  let s8 := if !is_remote && !is_hybrid then s7 - 1 else s7
  s8 + calculate_salary_penalty j.salary

/-- The adapters' retention check: a card is kept only when both title and
company are non-empty (`if job.get("title") and job.get("company")`). -/
def retainCard (j : Job) : Bool := !j.title.isEmpty && !j.company.isEmpty

/-- A job together with its computed rating (the `job["rating"]` field the
pipeline adds before filtering). -/
structure RatedJob where
  job : Job
  rating : Int
deriving DecidableEq, Repr

/-- The structured response of `find_jobs`. -/
structure Response where
  search_term : List Char
  location : List Char
  sites_searched : List (List Char)
  total_found : Nat
  jobs : List RatedJob
deriving DecidableEq, Repr

/-- Result of `find_jobs`: either the structured response, or the error
envelope `{"error": msg, "jobs": jobs}` (the source always passes `[]` for
the envelope's job list). -/
inductive FindJobsResult where
  | ok : Response → FindJobsResult
  | errorEnvelope : List Char → List RatedJob → FindJobsResult
deriving DecidableEq, Repr

/-- `SUPPORTED_SITES` from the source (the values of the `JobSite` enum). -/
def supportedSites : List (List Char) :=
  ["linkedin".toList, "glassdoor".toList, "google".toList, "indeed".toList,
   "levelsfyi".toList]

/-- Site-list normalization in `find_jobs`: default to `["linkedin"]` when the
caller passes nothing, keep the lowercased identifiers that are supported, and
fall back to `["linkedin"]` when none survive. -/
def normalizeSites (sites : Option (List (List Char))) : List (List Char) :=
  let ss := match sites with
    | none => ["linkedin".toList]
    | some l => l
  let valid := (ss.map lowerStr).filter (fun s => decide (s ∈ supportedSites))
  if valid = [] then ["linkedin".toList] else valid

/-- The per-site quota in `find_jobs`:
`jobs_per_site = max(results_wanted // len(valid_sites), 5)`. -/
def jobs_per_site (results_wanted k : Nat) : Nat := max (results_wanted / k) 5

/-- Outcome of loading one result page of a site, as seen by the scraping
code: extracted cards, a detected block condition (auth wall / CAPTCHA), or a
navigation/extraction exception. -/
inductive PageOutcome where
  | jobs : List Job → PageOutcome
  | blocked : PageOutcome
  | error : List Char → PageOutcome

/-- The pagination loop shared by `_search_linkedin` and `_search_indeed`:
iterate the planned page numbers, stopping early once enough jobs are
collected or a block condition is detected; page-level errors just skip to
the next page. -/
def paginateLoop (pe : Nat → PageOutcome) (maxJobs : Nat) :
    List Nat → List Job → List Job
  | [], acc => acc
  | p :: rest, acc =>
    if maxJobs ≤ acc.length then acc
    else
      match pe p with
      | .blocked => acc
      | .error _ => paginateLoop pe maxJobs rest acc
      | .jobs js => paginateLoop pe maxJobs rest (acc ++ js)

/-- A paginated site search: visit `ceil(maxJobs / jobsPerPage)` pages and
truncate the collected list to `maxJobs` (the `all_jobs[:max_jobs]` return). -/
def paginateSearch (pe : Nat → PageOutcome) (maxJobs jobsPerPage : Nat) : List Job :=
  (paginateLoop pe maxJobs (List.range ((maxJobs + jobsPerPage - 1) / jobsPerPage)) []).take
    maxJobs

/-- `_search_linkedin`: 25 jobs per page. -/
def search_linkedin (pe : Nat → PageOutcome) (maxJobs : Nat) : List Job :=
  paginateSearch pe maxJobs 25

/-- `_search_indeed`: 15 jobs per page. -/
def search_indeed (pe : Nat → PageOutcome) (maxJobs : Nat) : List Job :=
  paginateSearch pe maxJobs 15

/-- `_search_glassdoor` / `_search_google` / `_search_levelsfyi`: one page,
errors yield an empty list, and the result is truncated to `maxJobs`. -/
def search_singlepage (o : PageOutcome) (maxJobs : Nat) : List Job :=
  (match o with
    | .jobs js => js
    | _ => []).take maxJobs

/-- The per-site dispatch inside the `find_jobs` site loop. -/
def dispatchSite (site : List Char) (pe : Nat → PageOutcome) (maxJobs : Nat) :
    List Job :=
  if site = "linkedin".toList then search_linkedin pe maxJobs
  else if site = "glassdoor".toList then search_singlepage (pe 0) maxJobs
  else if site = "google".toList then search_singlepage (pe 0) maxJobs
  else if site = "levelsfyi".toList then search_singlepage (pe 0) maxJobs
  else if site = "indeed".toList then search_indeed pe maxJobs
  else []

/-- The site loop of `find_jobs`: each site's search runs under a
`try/except` whose handler logs and continues, so a failing site contributes
no postings.  The environment maps a site to either a raised exception or its
page oracle. -/
def collectAllJobs (env : List Char → Except (List Char) (Nat → PageOutcome))
    (sites : List (List Char)) (quota : Nat) : List Job :=
  sites.foldl
    (fun acc site =>
      match env site with
      | .error _ => acc
      | .ok pe => acc ++ dispatchSite site pe quota)
    []

/-- The deduplication loop of `find_jobs`, with its accumulator: `seen` is the
set of urls already kept and `cnt` the number of postings kept so far.  A
posting is kept when its url is non-empty and unseen; the loop breaks as soon
as `results_wanted` postings are kept. -/
def dedupGo (n : Nat) : List Job → List (List Char) → Nat → List Job
  | [], _, _ => []
  | j :: rest, seen, cnt =>
    if j.url ≠ [] ∧ j.url ∉ seen then
      if n ≤ cnt + 1 then [j]
      else j :: dedupGo n rest (j.url :: seen) (cnt + 1)
    else dedupGo n rest seen cnt

/-- Deduplicate by url and truncate to `results_wanted`, as `find_jobs` does
between the site loop and the rating pass. -/
def dedupTrunc (jobs : List Job) (n : Nat) : List Job := dedupGo n jobs [] 0

/-- Deduplication by url without the truncation (used to count the distinct
candidates a merged list holds). -/
def dedupAll : List Job → List (List Char) → List Job
  | [], _ => []
  | j :: rest, seen =>
    if j.url ≠ [] ∧ j.url ∉ seen then j :: dedupAll rest (j.url :: seen)
    else dedupAll rest seen

/-- Number of distinct postings (non-empty urls, first occurrences) in a
merged list. -/
def uniqueCount (jobs : List Job) : Nat := (dedupAll jobs []).length

/-- The rating pass of `find_jobs`: compute each kept posting's rating, then
keep those with rating at least `MIN_JOB_RATING = 0`. -/
def rateAndFilter (jobs : List Job) : List RatedJob :=
  (jobs.map (fun j => RatedJob.mk j (calculate_rating j))).filter
    (fun r => decide (0 ≤ r.rating))

/-- Everything `find_jobs` does after the browser is released: dedup with
truncation, then rate and filter. -/
def processJobs (all_jobs : List Job) (results_wanted : Nat) : List RatedJob :=
  rateAndFilter (dedupTrunc all_jobs results_wanted)

/-- The merged posting list a `find_jobs` run accumulates: every normalized
site searched with the per-site quota, failing sites contributing nothing. -/
def mergedJobs (results_wanted : Nat) (sites : Option (List (List Char)))
    (env : List Char → Except (List Char) (Nat → PageOutcome)) : List Job :=
  collectAllJobs env (normalizeSites sites)
    (jobs_per_site results_wanted (normalizeSites sites).length)

/-- `find_jobs`.  `browserFailure` models an exception escaping the
browser-scope `try` (launch, context creation, close): the source then
returns the error envelope with an empty job list.  Otherwise the site loop
runs, and the merged postings are deduplicated, truncated, rated, filtered
and packaged. -/
def find_jobs (search_term location : List Char) (results_wanted : Nat)
    (sites : Option (List (List Char)))
    (browserFailure : Option (List Char))
    (env : List Char → Except (List Char) (Nat → PageOutcome)) : FindJobsResult :=
  match browserFailure with
  | some e => .errorEnvelope e []
  | none =>
    let final := processJobs (mergedJobs results_wanted sites env) results_wanted
    .ok { search_term := search_term, location := location,
          sites_searched := normalizeSites sites, total_found := final.length,
          jobs := final }

/-!
Claim-side definitions.  These transcribe the specification's words where
they are to be compared with the source functions above.
-/

/-- Modelled from the wording of the salary-penalty claim: take the first
numeric token after stripping `$` and `,` (but not `k`), multiply by 1000 if
the text contains `k`, annualise below 200, and apply the $10k-deficit rule. -/
def claimSalaryPenalty (salary : List Char) : Int :=
  let text := ((lowerStr salary).filter (fun c => c != ',')).filter (fun c => c != '$')
  match firstNumToken text with
  | none => 0
  | some t =>
    let n1 := if 'k' ∈ text then t.num * 1000 else t.num
    let n2 := if n1 < 200 * 10 ^ t.exp then n1 * 2000 else n1
    if 200000 * 10 ^ t.exp ≤ n2 then 0
    else -(((200000 * 10 ^ t.exp - n2) / (10000 * 10 ^ t.exp) : Nat) : Int)

/-- The salary-penalty claim amended minimally: the first numeric token is
extracted only after the `k`s (detected beforehand) are also stripped. -/
def claimSalaryPenaltyAmended (salary : List Char) : Int :=
  let text := ((lowerStr salary).filter (fun c => c != ',')).filter (fun c => c != '$')
  let stripped := if 'k' ∈ text then text.filter (fun c => c != 'k') else text
  match firstNumToken stripped with
  | none => 0
  | some t =>
    let n1 := if 'k' ∈ text then t.num * 1000 else t.num
    let n2 := if n1 < 200 * 10 ^ t.exp then n1 * 2000 else n1
    if 200000 * 10 ^ t.exp ≤ n2 then 0
    else -(((200000 * 10 ^ t.exp - n2) / (10000 * 10 ^ t.exp) : Nat) : Int)

/-- Existential day-count scan, following the recency claim's words: the text
contains some (left-maximal) digit run, followed by whitespace and `d`, whose
value is at most 3. -/
def scanDaySpec (prevDigit : Bool) : List Char → Bool
  | [] => false
  | c :: rest =>
    if c.isDigit && !prevDigit then
      (followedByD (rest.dropWhile Char.isDigit) &&
        decide (digitsVal (c :: rest.takeWhile Char.isDigit) ≤ 3)) ||
      scanDaySpec true rest
    else scanDaySpec c.isDigit rest

/-- Modelled from the wording of the recency claim: an immediate-recency
token occurs, or some digit run followed (up to whitespace) by `d` has value
at most 3. -/
def claimIsRecent (date : List Char) : Bool :=
  let text := lowerStr date
  recencyTokens.any (fun t => containsSub t text) || scanDaySpec false text

/-- The recency claim amended minimally: only the first (leftmost) digit run
followed (up to whitespace) by `d` is consulted. -/
def claimIsRecentAmended (date : List Char) : Bool :=
  let text := lowerStr date
  recencyTokens.any (fun t => containsSub t text) ||
    match scanDay false text with
    | some d => decide (d ≤ 3)
    | none => false

/-!
Concrete postings, environments and responses used to evaluate the pipeline
on specific inputs.
-/

/-- The first rating example's posting: remote senior C#/C++ contract role. -/
def jobPerfect : Job :=
  { title := "Senior C# C++ Developer Contract".toList
    company := []
    location := "Remote".toList
    url := []
    source := []
    date_posted := []
    salary := "$250k".toList
    snippet := "We need C# and C++ experts.".toList
    easy_apply := true
    remote := false }

/-- The second rating example's posting: onsite junior Java role. -/
def jobBad : Job :=
  { title := "Junior Java Dev".toList
    company := []
    location := "Austin, TX".toList
    url := []
    source := []
    date_posted := []
    salary := "$100k".toList
    snippet := "Java only.".toList
    easy_apply := false
    remote := false }

/-- A minimal onsite posting: its only rating contribution is the onsite
penalty, so it rates −1 and is dropped by the threshold filter. -/
def jobOnsite : Job :=
  { title := "A".toList
    company := "B".toList
    location := []
    url := "u1".toList
    source := []
    date_posted := []
    salary := []
    snippet := []
    easy_apply := false
    remote := false }

/-- A minimal remote posting: rates +1 and passes the threshold filter. -/
def jobRemote : Job :=
  { title := "C".toList
    company := "D".toList
    location := "Remote".toList
    url := "u2".toList
    source := []
    date_posted := []
    salary := []
    snippet := []
    easy_apply := false
    remote := false }

/-- A posting with title and company (so the adapters would retain it) but no
url. -/
def jobNoUrl : Job :=
  { title := "T".toList
    company := "C".toList
    location := []
    url := []
    source := []
    date_posted := []
    salary := []
    snippet := []
    easy_apply := false
    remote := false }

/-- An environment where LinkedIn's first page yields `jobOnsite` and
`jobRemote` and every other site raises. -/
def envLinkedin : List Char → Except (List Char) (Nat → PageOutcome) :=
  fun site =>
    if site = "linkedin".toList then
      Except.ok
        (fun p => if p = 0 then PageOutcome.jobs [jobOnsite, jobRemote]
                  else PageOutcome.jobs [])
    else Except.error "site unavailable".toList

/-- An environment where LinkedIn's first page also yields the url-less
posting, ahead of the other two. -/
def envWithNoUrl : List Char → Except (List Char) (Nat → PageOutcome) :=
  fun site =>
    if site = "linkedin".toList then
      Except.ok
        (fun p => if p = 0 then PageOutcome.jobs [jobNoUrl, jobOnsite, jobRemote]
                  else PageOutcome.jobs [])
    else Except.error "site unavailable".toList

/-- The response of `find_jobs "t" "l" 1 (some ["linkedin"]) none envLinkedin`:
the cap selects only `jobOnsite`, which the rating filter then drops. -/
def respC1 : Response :=
  { search_term := "t".toList
    location := "l".toList
    sites_searched := ["linkedin".toList]
    total_found := 0
    jobs := [] }

/-- The response of `find_jobs "t" "l" 2 (some ["LinkedIn", "bogus"]) none
envLinkedin`: `jobOnsite` is rated −1 and filtered out, `jobRemote` kept. -/
def respFiltered : Response :=
  { search_term := "t".toList
    location := "l".toList
    sites_searched := ["linkedin".toList]
    total_found := 1
    jobs := [RatedJob.mk jobRemote 1] }

/-- The response of `find_jobs "t" "l" 2 (some ["linkedin"]) none
envWithNoUrl`: the url-less posting is discarded by dedup, `jobOnsite` is
filtered by rating, `jobRemote` survives. -/
def respNoUrl : Response :=
  { search_term := "t".toList
    location := "l".toList
    sites_searched := ["linkedin".toList]
    total_found := 1
    jobs := [RatedJob.mk jobRemote 1] }

/-!
Lemmas about the deduplication step.
-/

/-- With the counter strictly below the (at least 1) effective cap, the
truncating loop is a `take` of the untruncated deduplication. -/
theorem dedupGo_eq_take (n : Nat) (l : List Job) (seen : List (List Char))
    (cnt : Nat) (h : cnt < max n 1) :
    dedupGo n l seen cnt = (dedupAll l seen).take (max n 1 - cnt) := by
  induction l generalizing seen cnt with
  | nil => simp [dedupGo, dedupAll]
  | cons j rest ih =>
    simp only [dedupGo, dedupAll]
    by_cases hj : j.url ≠ [] ∧ j.url ∉ seen
    · rw [if_pos hj, if_pos hj]
      by_cases hb : n ≤ cnt + 1
      · rw [if_pos hb]
        have he : max n 1 - cnt = 1 := by omega
        rw [he, List.take_succ_cons, List.take_zero]
      · rw [if_neg hb]
        rw [ih _ _ (by omega)]
        have he : max n 1 - cnt = (max n 1 - (cnt + 1)) + 1 := by omega
        rw [he, List.take_succ_cons]
    · rw [if_neg hj, if_neg hj]
      exact ih _ _ h

/-- The truncating dedup is a prefix of the untruncated one (with cap at
least 1: with `results_wanted = 0` the break still fires only after the
first kept posting). -/
theorem dedupTrunc_eq_take (l : List Job) (n : Nat) :
    dedupTrunc l n = (dedupAll l []).take (max n 1) := by
  have h := dedupGo_eq_take n l [] 0 (by omega)
  simpa using h

/-- Every posting kept by the untruncated dedup has a non-empty url not
in the starting seen set. -/
theorem mem_dedupAll (l : List Job) (seen : List (List Char)) (j : Job)
    (hj : j ∈ dedupAll l seen) : j.url ≠ [] ∧ j.url ∉ seen := by
  induction l generalizing seen with
  | nil => simp [dedupAll] at hj
  | cons a rest ih =>
    simp only [dedupAll] at hj
    by_cases ha : a.url ≠ [] ∧ a.url ∉ seen
    · rw [if_pos ha] at hj
      rcases List.mem_cons.mp hj with h | h
      · subst h; exact ha
      · have h2 := ih _ h
        exact ⟨h2.1, fun hm => h2.2 (List.mem_cons_of_mem _ hm)⟩
    · rw [if_neg ha] at hj
      exact ih _ hj

/-- The urls kept by the untruncated dedup are pairwise distinct. -/
theorem nodup_dedupAll_urls (l : List Job) (seen : List (List Char)) :
    ((dedupAll l seen).map (fun j => j.url)).Nodup := by
  induction l generalizing seen with
  | nil => simp [dedupAll]
  | cons a rest ih =>
    simp only [dedupAll]
    by_cases ha : a.url ≠ [] ∧ a.url ∉ seen
    · rw [if_pos ha]
      simp only [List.map_cons, List.nodup_cons]
      refine ⟨fun hmem => ?_, ih _⟩
      rcases List.mem_map.mp hmem with ⟨b, hb, hub⟩
      exact (mem_dedupAll _ _ _ hb).2 (hub ▸ List.mem_cons_self _ _)
    · rw [if_neg ha]
      exact ih _

/-- On a list of postings with non-empty, unseen, pairwise-distinct urls the
dedup keeps everything. -/
theorem dedupAll_eq_self (l : List Job) (seen : List (List Char))
    (h1 : ∀ j ∈ l, j.url ≠ [] ∧ j.url ∉ seen)
    (h2 : (l.map (fun j => j.url)).Nodup) :
    dedupAll l seen = l := by
  induction l generalizing seen with
  | nil => simp [dedupAll]
  | cons a rest ih =>
    have ha := h1 a (List.mem_cons_self _ _)
    simp only [List.map_cons, List.nodup_cons] at h2
    simp only [dedupAll, if_pos ha]
    congr 1
    apply ih
    · intro j hj
      have hj2 := h1 j (List.mem_cons_of_mem _ hj)
      refine ⟨hj2.1, fun hmem => ?_⟩
      rcases List.mem_cons.mp hmem with h | h
      · exact h2.1 (h ▸ List.mem_map_of_mem (fun j => j.url) hj)
      · exact hj2.2 h
    · exact h2.2

/-- Postings kept by the truncating dedup have non-empty urls. -/
theorem mem_dedupTrunc_url (l : List Job) (n : Nat) (j : Job)
    (hj : j ∈ dedupTrunc l n) : j.url ≠ [] := by
  rw [dedupTrunc_eq_take] at hj
  exact (mem_dedupAll _ _ _ (List.take_subset _ _ hj)).1

/-- The truncating dedup never keeps more than `max n 1` postings. -/
theorem dedupTrunc_length_le (l : List Job) (n : Nat) :
    (dedupTrunc l n).length ≤ max n 1 := by
  rw [dedupTrunc_eq_take, List.length_take]
  omega

/-- When at least `n ≥ 1` distinct candidates exist, the truncating dedup
keeps exactly `n` postings. -/
theorem dedupTrunc_length_eq (l : List Job) (n : Nat) (h1 : 1 ≤ n)
    (h2 : n ≤ uniqueCount l) :
    (dedupTrunc l n).length = n := by
  rw [dedupTrunc_eq_take, List.length_take]
  unfold uniqueCount at h2
  omega

/-- The truncating dedup output is a sublist of the merged input: postings
appear in merged order, first occurrence per url. -/
theorem dedupGo_sublist (n : Nat) (l : List Job) (seen : List (List Char))
    (cnt : Nat) : List.Sublist (dedupGo n l seen cnt) l := by
  induction l generalizing seen cnt with
  | nil => simp [dedupGo]
  | cons a rest ih =>
    simp only [dedupGo]
    by_cases ha : a.url ≠ [] ∧ a.url ∉ seen
    · rw [if_pos ha]
      by_cases hb : n ≤ cnt + 1
      · rw [if_pos hb]
        exact (List.nil_sublist rest).cons₂ a
      · rw [if_neg hb]
        exact (ih _ _).cons₂ a
    · rw [if_neg ha]
      exact (ih _ _).cons a

/-- Once the cap is reachable within `l`, appending further postings does not
change the truncated dedup: the surplus is never examined. -/
theorem dedupGo_append (n : Nat) (extra : List Job) :
    ∀ (l : List Job) (seen : List (List Char)) (cnt : Nat), cnt < n →
      n - cnt ≤ (dedupAll l seen).length →
      dedupGo n (l ++ extra) seen cnt = dedupGo n l seen cnt := by
  intro l
  induction l with
  | nil =>
    intro seen cnt h1 h2
    simp [dedupAll] at h2
    omega
  | cons a rest ih =>
    intro seen cnt h1 h2
    simp only [dedupAll] at h2
    simp only [List.cons_append, dedupGo]
    by_cases ha : a.url ≠ [] ∧ a.url ∉ seen
    · rw [if_pos ha] at h2 ⊢
      rw [if_pos ha]
      by_cases hb : n ≤ cnt + 1
      · rw [if_pos hb, if_pos hb]
      · rw [if_neg hb, if_neg hb]
        simp only [List.length_cons] at h2
        congr 1
        rw [List.append_eq]
        exact ih _ _ (by omega) (by omega)
    · rw [if_neg ha] at h2 ⊢
      rw [if_neg ha]
      exact ih _ _ h1 h2

/-- Claim-level form of the previous lemma. -/
theorem dedupTrunc_append (l extra : List Job) (n : Nat) (h1 : 1 ≤ n)
    (h2 : n ≤ uniqueCount l) :
    dedupTrunc (l ++ extra) n = dedupTrunc l n := by
  unfold dedupTrunc
  unfold uniqueCount at h2
  exact dedupGo_append n extra l [] 0 (by omega) (by omega)

/-!
Lemmas about the rating pass and the assembled response.
-/

/-- Membership in the rating pass output: the posting was in the input, its
stored rating is the computed one, and it met the threshold. -/
theorem mem_rateAndFilter (jobs : List Job) (r : RatedJob)
    (h : r ∈ rateAndFilter jobs) :
    r.job ∈ jobs ∧ r.rating = calculate_rating r.job ∧ 0 ≤ r.rating := by
  unfold rateAndFilter at h
  rcases List.mem_filter.mp h with ⟨hmap, hpred⟩
  rcases List.mem_map.mp hmap with ⟨j, hj, he⟩
  subst he
  exact ⟨hj, rfl, of_decide_eq_true hpred⟩

/-- The rating pass never lengthens the list. -/
theorem rateAndFilter_length_le (jobs : List Job) :
    (rateAndFilter jobs).length ≤ jobs.length := by
  unfold rateAndFilter
  calc ((jobs.map (fun j => RatedJob.mk j (calculate_rating j))).filter
          (fun r => decide (0 ≤ r.rating))).length
      ≤ (jobs.map (fun j => RatedJob.mk j (calculate_rating j))).length :=
        List.length_filter_le _ _
    _ = jobs.length := List.length_map _ _

/-- A successful (no browser failure) `find_jobs` run returns the assembled
response. -/
theorem find_jobs_ok (st loc : List Char) (rw : Nat)
    (sites : Option (List (List Char)))
    (env : List Char → Except (List Char) (Nat → PageOutcome)) :
    find_jobs st loc rw sites none env =
      FindJobsResult.ok
        { search_term := st
          location := loc
          sites_searched := normalizeSites sites
          total_found := (processJobs (mergedJobs rw sites env) rw).length
          jobs := processJobs (mergedJobs rw sites env) rw } := rfl

/-- Site-list normalization never returns an empty list. -/
theorem normalizeSites_ne_nil (sites : Option (List (List Char))) :
    normalizeSites sites ≠ [] := by
  cases sites with
  | none =>
    simp only [normalizeSites]
    split
    · simp
    · assumption
  | some l =>
    simp only [normalizeSites]
    split
    · simp
    · assumption

/-- The source salary penalty agrees everywhere with the amended claim-side
formula (token extracted after the `k`s are stripped). -/
theorem salary_penalty_amended_eq (s : List Char) :
    calculate_salary_penalty s = claimSalaryPenaltyAmended s := by
  unfold calculate_salary_penalty claimSalaryPenaltyAmended
  by_cases hs : s = []
  · subst hs; rfl
  · rw [if_neg hs]
    by_cases hk : 'k' ∈ ((lowerStr s).filter (fun c => c != ',')).filter (fun c => c != '$')
    · simp only [if_pos hk]
    · simp only [if_neg hk]
      cases h : firstNumToken (((lowerStr s).filter (fun c => c != ',')).filter
          (fun c => c != '$')) with
      | none => rfl
      | some t => simp [Nat.mul_one]

/-- The source recency predicate agrees everywhere with the amended
claim-side predicate (leftmost day-count match decides). -/
theorem is_recent_amended_eq (s : List Char) :
    is_recent_job s = claimIsRecentAmended s := by
  unfold is_recent_job claimIsRecentAmended
  by_cases hs : s = []
  · subst hs; rfl
  · rw [if_neg hs]
    cases ha : recencyTokens.any (fun t => containsSub t (lowerStr s)) with
    | true => simp [ha]
    | false => simp [ha]

/-!
The claims.
-/

/-- C1 (counterexample): with `resultsWanted = 1` and two deduplicated
candidates, the final jobs list of the response holds 0 postings, not
exactly 1 — the rating filter runs after the truncation and removes the
negatively rated selected posting. -/
theorem find_jobs_exact_cap_counterexample :
    1 < uniqueCount (mergedJobs 1 (some ["linkedin".toList]) envLinkedin) ∧
    find_jobs "t".toList "l".toList 1 (some ["linkedin".toList]) none envLinkedin =
      FindJobsResult.ok respC1 ∧
    respC1.jobs.length = 0 :=
  ⟨by decide, by decide, by decide⟩

/-- C1 (amended): with `resultsWanted = N ≥ 1` and more than `N`
deduplicated candidates, the deduplicated capped list holds exactly `N`
postings taken in merged order (a sublist, first occurrence per url); the
response's jobs list is that capped list rated and threshold-filtered, so it
holds at most `N` postings; and surplus postings beyond the cap are never
examined (appending them changes nothing). -/
theorem find_jobs_cap_truncation (st loc : List Char) (n : Nat)
    (sites : Option (List (List Char)))
    (env : List Char → Except (List Char) (Nat → PageOutcome)) (resp : Response)
    (h : find_jobs st loc n sites none env = FindJobsResult.ok resp)
    (h1 : 1 ≤ n) (h2 : n < uniqueCount (mergedJobs n sites env)) :
    (dedupTrunc (mergedJobs n sites env) n).length = n ∧
    List.Sublist (dedupTrunc (mergedJobs n sites env) n) (mergedJobs n sites env) ∧
    resp.jobs = rateAndFilter (dedupTrunc (mergedJobs n sites env) n) ∧
    resp.jobs.length ≤ n ∧
    ∀ extra, dedupTrunc (mergedJobs n sites env ++ extra) n =
      dedupTrunc (mergedJobs n sites env) n := by
  rw [find_jobs_ok] at h
  injection h with h
  subst h
  have hlen := dedupTrunc_length_eq (mergedJobs n sites env) n h1 (le_of_lt h2)
  refine ⟨hlen, dedupGo_sublist _ _ _ _, rfl, ?_, ?_⟩
  · calc (processJobs (mergedJobs n sites env) n).length
        ≤ (dedupTrunc (mergedJobs n sites env) n).length := rateAndFilter_length_le _
      _ = n := hlen
  · intro extra
    exact dedupTrunc_append _ extra n h1 (le_of_lt h2)

/-- C1 (witness): the amended statement evaluated on the concrete
one-site environment with two candidates and `resultsWanted = 1`. -/
theorem find_jobs_cap_truncation_witness :
    (dedupTrunc (mergedJobs 1 (some ["linkedin".toList]) envLinkedin) 1).length = 1 ∧
    List.Sublist (dedupTrunc (mergedJobs 1 (some ["linkedin".toList]) envLinkedin) 1)
      (mergedJobs 1 (some ["linkedin".toList]) envLinkedin) ∧
    respC1.jobs = rateAndFilter
      (dedupTrunc (mergedJobs 1 (some ["linkedin".toList]) envLinkedin) 1) ∧
    respC1.jobs.length ≤ 1 ∧
    ∀ extra, dedupTrunc (mergedJobs 1 (some ["linkedin".toList]) envLinkedin ++ extra) 1 =
      dedupTrunc (mergedJobs 1 (some ["linkedin".toList]) envLinkedin) 1 :=
  find_jobs_cap_truncation "t".toList "l".toList 1 (some ["linkedin".toList])
    envLinkedin respC1 (by decide) (by decide) (by decide)

/-- C2 (counterexample): the claimed formula extracts the first numeric token
before the `k`s are stripped, the source after; on `"10k20"` the source
yields 0 while the claimed formula yields −19. -/
theorem salary_penalty_claim_counterexample :
    calculate_salary_penalty "10k20".toList = 0 ∧
    claimSalaryPenalty "10k20".toList = -19 ∧
    calculate_salary_penalty "10k20".toList ≠ claimSalaryPenalty "10k20".toList :=
  ⟨by decide, by decide, by decide⟩

/-- C2 (amended): for every salary string the source penalty equals the
claimed formula with the token extracted after stripping `$`, `,` and the
`k`s; and the eight quoted examples evaluate as claimed. -/
theorem salary_penalty_spec :
    (∀ s : List Char, calculate_salary_penalty s = claimSalaryPenaltyAmended s) ∧
    calculate_salary_penalty "$250,000".toList = 0 ∧
    calculate_salary_penalty "200k".toList = 0 ∧
    calculate_salary_penalty "$190,000".toList = -1 ∧
    calculate_salary_penalty "$150k - $180k".toList = -5 ∧
    calculate_salary_penalty "100k".toList = -10 ∧
    calculate_salary_penalty "$50/hr".toList = -10 ∧
    calculate_salary_penalty "$100/hr".toList = 0 ∧
    calculate_salary_penalty [] = 0 :=
  ⟨salary_penalty_amended_eq, by decide, by decide, by decide, by decide, by decide,
   by decide, by decide, by decide⟩

/-- C3: the two quoted rating examples: the remote C#/C++ contract posting
rates exactly 5, the onsite junior Java posting exactly −11. -/
theorem rating_examples :
    calculate_rating jobPerfect = 5 ∧ calculate_rating jobBad = -11 :=
  ⟨by decide, by decide⟩

/-- C4: in every successful `find_jobs` response, each returned posting's
stored rating is its computed rating and is at least the threshold 0; no
posting with negative computed rating appears; and `total_found` equals the
length of the post-filter jobs list. -/
theorem rating_threshold_filtering (st loc : List Char) (rw : Nat)
    (sites : Option (List (List Char)))
    (env : List Char → Except (List Char) (Nat → PageOutcome)) (resp : Response)
    (h : find_jobs st loc rw sites none env = FindJobsResult.ok resp) :
    (∀ r ∈ resp.jobs, r.rating = calculate_rating r.job ∧ 0 ≤ r.rating) ∧
    (∀ j : Job, calculate_rating j < 0 → ∀ r ∈ resp.jobs, r.job ≠ j) ∧
    resp.total_found = resp.jobs.length := by
  rw [find_jobs_ok] at h
  injection h with h
  subst h
  refine ⟨?_, ?_, rfl⟩
  · intro r hr
    have hr2 : r ∈ rateAndFilter (dedupTrunc (mergedJobs rw sites env) rw) := hr
    have h3 := mem_rateAndFilter _ _ hr2
    exact ⟨h3.2.1, h3.2.2⟩
  · intro j hj r hr he
    have hr2 : r ∈ rateAndFilter (dedupTrunc (mergedJobs rw sites env) rw) := hr
    have h3 := mem_rateAndFilter _ _ hr2
    rw [he] at h3
    omega

/-- C4 (witness): the threshold property evaluated on the concrete run whose
merged list holds a −1-rated and a +1-rated posting. -/
theorem rating_threshold_filtering_witness :
    (∀ r ∈ respFiltered.jobs, r.rating = calculate_rating r.job ∧ 0 ≤ r.rating) ∧
    (∀ j : Job, calculate_rating j < 0 → ∀ r ∈ respFiltered.jobs, r.job ≠ j) ∧
    respFiltered.total_found = respFiltered.jobs.length :=
  rating_threshold_filtering "t".toList "l".toList 2
    (some ["LinkedIn".toList, "bogus".toList]) envLinkedin respFiltered (by decide)

/-- C5 (counterexample): the claim reads the day-count rule existentially,
the source consults only the leftmost match; on `"10 d 1 d"` the source says
not recent while the claimed predicate says recent. -/
theorem recent_job_claim_counterexample :
    is_recent_job "10 d 1 d".toList = false ∧
    claimIsRecent "10 d 1 d".toList = true :=
  ⟨by decide, by decide⟩

/-- C5 (amended): the recency predicate holds iff the lowercased text
contains an immediate-recency token or the first (leftmost) digit run
followed (up to whitespace) by `d` has value at most 3; with the quoted
non-recent examples evaluating as claimed. -/
theorem recent_job_spec :
    (∀ s : List Char, is_recent_job s = claimIsRecentAmended s) ∧
    is_recent_job "today".toList = true ∧
    is_recent_job "just now".toList = true ∧
    is_recent_job "2 days ago".toList = true ∧
    is_recent_job "3d".toList = true ∧
    is_recent_job "4 days ago".toList = false ∧
    is_recent_job "30 days ago".toList = false ∧
    is_recent_job "2024-05-01".toList = false ∧
    is_recent_job [] = false :=
  ⟨is_recent_amended_eq, by decide, by decide, by decide, by decide, by decide,
   by decide, by decide, by decide⟩

/-- C6: with `resultsWanted ≥ 1`, the post-normalization site list is
non-empty, the per-site quota is `max (resultsWanted / k) 5` for its size
`k`, the quota is never below 5, and every site search's collected postings
are capped at the quota. -/
theorem per_site_quota (rw : Nat) (sites : Option (List (List Char)))
    (_h : 1 ≤ rw) :
    1 ≤ (normalizeSites sites).length ∧
    jobs_per_site rw (normalizeSites sites).length =
      max (rw / (normalizeSites sites).length) 5 ∧
    5 ≤ jobs_per_site rw (normalizeSites sites).length ∧
    ∀ (site : List Char) (pe : Nat → PageOutcome),
      (dispatchSite site pe (jobs_per_site rw (normalizeSites sites).length)).length ≤
        jobs_per_site rw (normalizeSites sites).length := by
  refine ⟨?_, rfl, le_max_right _ _, ?_⟩
  · exact List.length_pos.mpr (normalizeSites_ne_nil sites)
  · intro site pe
    unfold dispatchSite
    split_ifs <;>
      simp [search_linkedin, search_indeed, search_singlepage, paginateSearch,
        List.length_take]

/-- C6 (witness): the quota facts evaluated at `resultsWanted = 1` with the
default site list. -/
theorem per_site_quota_witness :
    1 ≤ (normalizeSites none).length ∧
    jobs_per_site 1 (normalizeSites none).length =
      max (1 / (normalizeSites none).length) 5 ∧
    5 ≤ jobs_per_site 1 (normalizeSites none).length ∧
    ∀ (site : List Char) (pe : Nat → PageOutcome),
      (dispatchSite site pe (jobs_per_site 1 (normalizeSites none).length)).length ≤
        jobs_per_site 1 (normalizeSites none).length :=
  per_site_quota 1 none (by decide)

/-- C7: the deduplication step (keep first occurrence per url, accumulate up
to the cap) is idempotent. -/
theorem dedup_idempotent (l : List Job) (n : Nat) :
    dedupTrunc (dedupTrunc l n) n = dedupTrunc l n := by
  have h1 : ∀ j ∈ (dedupAll l []).take (max n 1),
      j.url ≠ [] ∧ j.url ∉ ([] : List (List Char)) := by
    intro j hj
    exact ⟨(mem_dedupAll _ _ _ (List.take_subset _ _ hj)).1, by simp⟩
  have h2 : (((dedupAll l []).take (max n 1)).map (fun j => j.url)).Nodup := by
    rw [List.map_take]
    exact (nodup_dedupAll_urls l []).sublist (List.take_sublist _ _)
  rw [dedupTrunc_eq_take (dedupTrunc l n) n, dedupTrunc_eq_take l n,
    dedupAll_eq_self _ _ h1 h2, List.take_take, min_self]

/-- C8: query normalization keeps exactly the lowercased identifiers from
the closed five-element site set, dropping the rest; the empty result falls
back to `["linkedin"]` (also when `sites` is omitted); and the response's
`sites_searched` is this post-normalization list. -/
theorem site_normalization (ss : List (List Char)) (st loc : List Char) (rw : Nat)
    (env : List Char → Except (List Char) (Nat → PageOutcome)) (resp : Response)
    (h : find_jobs st loc rw (some ss) none env = FindJobsResult.ok resp) :
    resp.sites_searched = normalizeSites (some ss) ∧
    normalizeSites (some ss) =
      (if (ss.map lowerStr).filter (fun s => decide (s ∈ supportedSites)) = []
       then ["linkedin".toList]
       else (ss.map lowerStr).filter (fun s => decide (s ∈ supportedSites))) ∧
    (∀ x, x ∈ (ss.map lowerStr).filter (fun s => decide (s ∈ supportedSites)) ↔
      x ∈ ss.map lowerStr ∧
        (x = "linkedin".toList ∨ x = "glassdoor".toList ∨ x = "google".toList ∨
         x = "levelsfyi".toList ∨ x = "indeed".toList)) ∧
    normalizeSites none = ["linkedin".toList] := by
  rw [find_jobs_ok] at h
  injection h with h
  subst h
  refine ⟨rfl, rfl, ?_, rfl⟩
  intro x
  rw [List.mem_filter]
  simp only [decide_eq_true_eq, supportedSites, List.mem_cons, List.not_mem_nil,
    or_false]
  tauto

/-- C8 (witness): normalization evaluated on a list with mixed-case and
unknown identifiers. -/
theorem site_normalization_witness :
    respFiltered.sites_searched =
      normalizeSites (some ["LinkedIn".toList, "bogus".toList]) ∧
    normalizeSites (some ["LinkedIn".toList, "bogus".toList]) =
      (if (["LinkedIn".toList, "bogus".toList].map lowerStr).filter
            (fun s => decide (s ∈ supportedSites)) = []
       then ["linkedin".toList]
       else (["LinkedIn".toList, "bogus".toList].map lowerStr).filter
            (fun s => decide (s ∈ supportedSites))) ∧
    (∀ x, x ∈ (["LinkedIn".toList, "bogus".toList].map lowerStr).filter
        (fun s => decide (s ∈ supportedSites)) ↔
      x ∈ ["LinkedIn".toList, "bogus".toList].map lowerStr ∧
        (x = "linkedin".toList ∨ x = "glassdoor".toList ∨ x = "google".toList ∨
         x = "levelsfyi".toList ∨ x = "indeed".toList)) ∧
    normalizeSites none = ["linkedin".toList] :=
  site_normalization ["LinkedIn".toList, "bogus".toList] "t".toList "l".toList 2
    envLinkedin respFiltered (by decide)

/-- C9: `find_jobs` returns the error envelope (with an empty job list)
exactly when the run-level browser scope fails; per-site errors — even every
site failing — still produce the structured response. -/
theorem error_envelope_shape (st loc : List Char) (rw : Nat)
    (sites : Option (List (List Char)))
    (env : List Char → Except (List Char) (Nat → PageOutcome)) :
    (∀ e, find_jobs st loc rw sites (some e) env =
      FindJobsResult.errorEnvelope e []) ∧
    (∃ resp, find_jobs st loc rw sites none env = FindJobsResult.ok resp) ∧
    (∀ msgs : List Char → List Char,
      ∃ resp, find_jobs st loc rw sites none (fun s => Except.error (msgs s)) =
        FindJobsResult.ok resp) :=
  ⟨fun _ => rfl, ⟨_, find_jobs_ok st loc rw sites env⟩,
   fun msgs => ⟨_, find_jobs_ok st loc rw sites (fun s => Except.error (msgs s))⟩⟩

/-- C10: every posting in a successful response has a non-empty url; a
posting with empty url — even one passing the adapters' title-and-company
retention check — is discarded by dedup and never rated or returned. -/
theorem final_jobs_nonempty_url (st loc : List Char) (rw : Nat)
    (sites : Option (List (List Char)))
    (env : List Char → Except (List Char) (Nat → PageOutcome)) (resp : Response)
    (j : Job) (h : find_jobs st loc rw sites none env = FindJobsResult.ok resp)
    (hj : j.url = []) :
    (∀ r ∈ resp.jobs, r.job.url ≠ []) ∧
    (∀ r ∈ resp.jobs, r.job ≠ j) ∧
    (∀ (l : List Job) (n : Nat), j ∉ dedupTrunc l n) := by
  rw [find_jobs_ok] at h
  injection h with h
  subst h
  have hmem : ∀ r ∈ processJobs (mergedJobs rw sites env) rw, r.job.url ≠ [] := by
    intro r hr
    have hr2 : r ∈ rateAndFilter (dedupTrunc (mergedJobs rw sites env) rw) := hr
    have h3 := mem_rateAndFilter _ _ hr2
    exact mem_dedupTrunc_url _ _ _ h3.1
  refine ⟨hmem, ?_, ?_⟩
  · intro r hr he
    exact hmem r hr (by rw [he, hj])
  · intro l n hmem2
    exact mem_dedupTrunc_url l n j hmem2 hj

/-- C10 (witness): the url invariant evaluated on the run whose first
extracted posting passes the retention check but lacks a url. -/
theorem final_jobs_nonempty_url_witness :
    retainCard jobNoUrl = true ∧
    ((∀ r ∈ respNoUrl.jobs, r.job.url ≠ []) ∧
     (∀ r ∈ respNoUrl.jobs, r.job ≠ jobNoUrl) ∧
     (∀ (l : List Job) (n : Nat), jobNoUrl ∉ dedupTrunc l n)) :=
  ⟨by decide,
   final_jobs_nonempty_url "t".toList "l".toList 2 (some ["linkedin".toList])
     envWithNoUrl respNoUrl jobNoUrl (by decide) rfl⟩

end JobSpy
